import Mathlib

set_option maxRecDepth 8000

/- Shallow embedding of the progressive-chunk extraction engine of the
academic-document-processor repository (src/process_llm.py) and the batch
runner around it (src/parse_documents.py).

Modelling conventions:
- Field values carried by a pydantic response are modelled by `Value`
  (strings, lists of strings, dates); Python truthiness of a value is
  `truthyV`, and `pyTruthy` extends it to `Option Value` where `none`
  stands for Python `None` (falsy).
- `ContentExtractor.extracted_data` (a dict from field name to value-or-None,
  process_llm.py line 41) is the association list `State`, in schema field
  order; pydantic `model_fields` keys are unique, so plain key update
  (`setField`) mirrors dict assignment.
- The external structured-response call (lines 91-101) is an oracle
  `Nat -> AttemptOutcome` indexed by the step number: it either raises a
  validation failure or yields a validated response, modelled as a function
  from field name to `Option Value` (`getattr(resp, field, None)`).  The
  rendered prompt (chunk text and missing-field lists, lines 77-86) only
  influences which response the external model produces, so it is absorbed
  into the oracle; the chunk computation itself is embedded separately as
  `cutoff` and `get_cumulative_chunk`.
- `time.time()` bookkeeping is dropped except for one observable fact: the
  local `total_elapsed` is first assigned at line 121, inside the loop after
  a non-failing attempt.  The log lines after the loop (lines 133 and 140)
  interpolate `total_elapsed`, so if no attempt ever succeeded they raise
  UnboundLocalError.  The Boolean `es` threaded through `extractSteps`
  records whether `total_elapsed` has been assigned, and `finishRun` turns
  a run that ends with `es = false` into `PyError.nameError`.
- `self.response_model(**self.extracted_data)` (lines 128 and 145) performs
  pydantic validation of the final record: a field whose stored value is
  `None` passes only when the annotation permits `None` (`allowsNone` in
  `FieldSpec`).  Values that were stored came from a response already
  validated against the same model, so they re-validate successfully.
- `extract_information` additionally returns the number of validator
  invocations performed, as bookkeeping for the resource claims. -/

namespace DocProc

/-- A field value as produced by a validated response: a string, a list of
strings (the `authors` field), or a date (`ResearchPaperDates`). -/
inductive Value
  | vStr (s : String)
  | vList (xs : List String)
  | vDate (y m d : Nat)
deriving DecidableEq

/-- Python truthiness of a `Value`: empty strings and empty lists are falsy,
date objects are always truthy. -/
def truthyV : Value → Bool
  | Value.vStr s => !s.isEmpty
  | Value.vList xs => !xs.isEmpty
  | Value.vDate _ _ _ => true

/-- Python truthiness of a value-or-None (`if value:` at line 114). -/
def pyTruthy : Option Value → Bool
  | none => false
  | some v => truthyV v

/-- `extracted_data`: mapping from field name to extracted value or `None`,
kept in schema declaration order (process_llm.py line 41). -/
abbrev State := List (String × Option Value)

/-- One schema field: its name and whether its type annotation permits
`None` (e.g. `authors: list[str] | None` in `ResearchPaperSummary`). -/
structure FieldSpec where
  name : String
  allowsNone : Bool
deriving DecidableEq

/-- `self.response_model.model_fields.keys()` (line 63). -/
def fieldNames (schema : List FieldSpec) : List String :=
  schema.map (fun f => f.name)

/-- The keys of an extraction state. -/
def stateKeys (st : State) : List String :=
  st.map (fun p => p.1)

/-- Dictionary read `self.extracted_data[field]`; the key is always present
in the states the engine builds, and an absent key reads as `None`. -/
def getField : State → String → Option Value
  | [], _ => none
  | p :: rest, f => if p.1 = f then p.2 else getField rest f

/-- Dictionary write `self.extracted_data[field] = value` (line 115). -/
def setField : State → String → Value → State
  | [], _, _ => []
  | p :: rest, f, v =>
      (if p.1 = f then (p.1, some v) else p) :: setField rest f v

/-- `{k: None for k in self.response_model.model_fields}` (line 41). -/
def initState (schema : List FieldSpec) : State :=
  (fieldNames schema).map (fun n => (n, none))

/-- `[field for field in fields if self.extracted_data[field] is None]`
(lines 69-71): every field whose current value is `None`, in field order.
Note that the computation never consults `allowsNone`. -/
def missingFields (st : State) (names : List String) : List String :=
  names.filter (fun f => (getField st f).isNone)

/-- `all(self.extracted_data.values())` (lines 124 and 131): every stored
value is truthy (in particular, not `None`). -/
def allTruthy (st : State) : Bool :=
  st.all (fun p => pyTruthy p.2)

/-- The merge of one attempt into the state (lines 112-118): for each field
that was missing before the attempt, store the response value if it is
truthy; otherwise leave the field untouched. -/
def mergeResp (st : State) (missing : List String) (resp : String → Option Value) : State :=
  List.foldl
    (fun acc field =>
      match resp field with
      | some v => if truthyV v then setField acc field v else acc
      | none => acc)
    st missing

/-- Exceptions escaping `extract_information`: the pydantic
`ValidationError` raised by the final model construction, or the
UnboundLocalError on `total_elapsed` described in the header comment. -/
inductive PyError
  | validationError
  | nameError
deriving DecidableEq

/-- `self.response_model(**self.extracted_data)` (lines 128 and 145):
pydantic validation of the final record.  A field whose value is still
`None` passes only if its annotation permits `None`; stored values are
already validated.  On success the record is the state itself. -/
def finalize (schema : List FieldSpec) (st : State) : Except PyError State :=
  if schema.all (fun f => (getField st f.name).isSome || f.allowsNone)
  then Except.ok st
  else Except.error PyError.validationError

/-- Outcome of one call to the structured-response client (lines 91-101):
either a `ValidationError` caught at line 103, or a validated response
giving `getattr(resp, field, None)` per field. -/
inductive AttemptOutcome
  | failure
  | success (resp : String → Option Value)

/-- How the loop of lines 65-128 finished: `early st` is the return inside
the loop at line 128; `ended st es` means the `for` loop ran out of steps
(or hit the `break` at line 74), with `es` recording whether
`total_elapsed` was ever assigned (line 121). -/
inductive LoopResult
  | early (st : State)
  | ended (st : State) (es : Bool)
deriving DecidableEq

/-- The extraction state carried by a loop result. -/
def finalStateOf : LoopResult → State
  | LoopResult.early st => st
  | LoopResult.ended st _ => st

/-- The loop `for step in range(1, self.max_chunks + 1)` (lines 65-128),
together with the count of validator invocations it makes.  `fuel` is the
number of remaining steps, so the loop starts with `step = 1` and
`fuel = max_chunks`.  One iteration: if no field is missing, `break`
(line 74); otherwise invoke the validator; on a validation failure,
`continue` (line 105); on success, merge the response into the state,
record that `total_elapsed` is now assigned, and return early when every
field is filled (line 128). -/
def extractSteps (names : List String) (oracle : Nat → AttemptOutcome) :
    State → Bool → Nat → Nat → LoopResult × Nat
  | st, es, _, 0 => (LoopResult.ended st es, 0)
  | st, es, step, fuel + 1 =>
    if (missingFields st names).isEmpty then (LoopResult.ended st es, 0)
    else
      match oracle step with
      | AttemptOutcome.failure =>
          ((extractSteps names oracle st es (step + 1) fuel).1,
           (extractSteps names oracle st es (step + 1) fuel).2 + 1)
      | AttemptOutcome.success resp =>
          if allTruthy (mergeResp st (missingFields st names) resp) then
            (LoopResult.early (mergeResp st (missingFields st names) resp), 1)
          else
            ((extractSteps names oracle (mergeResp st (missingFields st names) resp)
                true (step + 1) fuel).1,
             (extractSteps names oracle (mergeResp st (missingFields st names) resp)
                true (step + 1) fuel).2 + 1)

/-- The code after the loop (lines 124-145).  An early return hands the
freshly validated record back (line 128).  Otherwise the log lines at 133
and 140 interpolate `total_elapsed`, raising UnboundLocalError when it was
never assigned; then line 145 builds (and pydantic-validates) the final,
possibly partial, record. -/
def finishRun (schema : List FieldSpec) : LoopResult → Except PyError State
  | LoopResult.early st => finalize schema st
  | LoopResult.ended st true => finalize schema st
  | LoopResult.ended _ false => Except.error PyError.nameError

/-- `ContentExtractor.extract_information` (lines 61-145), abstracted over
the validator oracle, paired with the number of validator invocations. -/
def extract_information (schema : List FieldSpec) (oracle : Nat → AttemptOutcome)
    (maxChunks : Nat) : Except PyError State × Nat :=
  (finishRun schema
      (extractSteps (fieldNames schema) oracle (initState schema) false 1 maxChunks).1,
   (extractSteps (fieldNames schema) oracle (initState schema) false 1 maxChunks).2)

/-- `end = min(self.chunk_step * current_step, self.total_words)`
(line 58). -/
def cutoff (chunkStep step total : Nat) : Nat :=
  min (chunkStep * step) total

/-- `_get_cumulative_chunk` (lines 56-59): the first `cutoff` words of the
document joined back into a string.  `words` is `self.content.split()`. -/
def get_cumulative_chunk (words : List String) (chunkStep step : Nat) : String :=
  " ".intercalate (words.take (cutoff chunkStep step words.length))

/-- The invariant of claim C9: every stored value is either unset or
truthy. -/
def stateWF (st : State) : Prop :=
  ∀ p ∈ st, p.2 = none ∨ pyTruthy p.2 = true

/- Embedding of src/parse_documents.py.  The two schemas mirror the
pydantic models declared at lines 25-37: in `ResearchPaperSummary` only
`authors` is annotated `list[str] | None`; both date fields of
`ResearchPaperDates` are plain `date`. -/

/-- `ResearchPaperSummary` (parse_documents.py lines 25-30). -/
def ResearchPaperSummary : List FieldSpec :=
  [⟨"authors", true⟩, ⟨"title", false⟩, ⟨"abstract", false⟩]

/-- `ResearchPaperDates` (parse_documents.py lines 33-37). -/
def ResearchPaperDates : List FieldSpec :=
  [⟨"start_date", false⟩, ⟨"end_date", false⟩]

/-- `_get_research_paper_content` (lines 104-126): run the extractor with
the summary schema and the default chunk budget of 20, catching a
`ValidationError` into `None`; the UnboundLocalError case escapes.  Paired
with the validator invocation count. -/
def get_research_paper_content (oracle : Nat → AttemptOutcome) :
    Except Unit (Option State) × Nat :=
  match extract_information ResearchPaperSummary oracle 20 with
  | (Except.ok st, c) => (Except.ok (some st), c)
  | (Except.error PyError.validationError, c) => (Except.ok none, c)
  | (Except.error PyError.nameError, c) => (Except.error (), c)

/-- `_get_date_range_metadata` (lines 129-165): same shape with the dates
schema.  The document metadata JSON it receives only feeds the prompt, so
it is absorbed into the oracle. -/
def get_date_range_metadata (oracle : Nat → AttemptOutcome) :
    Except Unit (Option State) × Nat :=
  match extract_information ResearchPaperDates oracle 20 with
  | (Except.ok st, c) => (Except.ok (some st), c)
  | (Except.error PyError.validationError, c) => (Except.ok none, c)
  | (Except.error PyError.nameError, c) => (Except.error (), c)

/-- `if not text_data or len(text_data) < 100` (line 229): true when the
text is unavailable, empty, or shorter than 100 characters (an empty
string is falsy and also has length 0 below 100). -/
def textTooShort : Option String → Bool
  | none => true
  | some s => decide (s.length < 100)

/-- A document to process.  Its identifying path is `str(doc.path)`; the
journal, year and month-range metadata only feed the prompt of the dates
extraction, which is absorbed into the per-document oracle. -/
structure Doc where
  path : String
deriving DecidableEq

/-- What one `_process_document` call does to the logs: nothing (already
processed), one line appended to documents_success.jsonl, or one line
appended to documents_failed.jsonl. -/
inductive DocOutcome
  | skipped
  | successLine
  | failedLine
deriving DecidableEq

/-- Result of `_process_document`: the log outcome together with the number
of validator invocations made by the dates extraction and by the summary
extraction. -/
structure ProcResult where
  outcome : DocOutcome
  datesCalls : Nat
  summaryCalls : Nat
deriving DecidableEq

/-- `_process_document` (lines 202-272), for one document.  Control flow of
the source: skip if the path is in the set scanned from the success log
(lines 210-221); otherwise run the dates extraction first (line 225), then
check the extracted text (line 229) and raise FileNotFoundError when it is
unavailable or shorter than 100 characters; then run the summary
extraction; a `None` summary raises (line 237) and a `None` dates value
makes `dates.model_dump` raise (line 241); every raised exception is
caught per document and appends one line to the failure log; otherwise one
line is appended to the success log (lines 243-247). -/
def process_document (alreadyProcessed : List String) (doc : Doc)
    (textData : Option String) (datesOracle summaryOracle : Nat → AttemptOutcome) :
    ProcResult :=
  if doc.path ∈ alreadyProcessed then ⟨DocOutcome.skipped, 0, 0⟩
  else
    match get_date_range_metadata datesOracle with
    | (Except.error _, dc) => ⟨DocOutcome.failedLine, dc, 0⟩
    | (Except.ok datesOpt, dc) =>
      if textTooShort textData then ⟨DocOutcome.failedLine, dc, 0⟩
      else
        match get_research_paper_content summaryOracle with
        | (Except.error _, sc) => ⟨DocOutcome.failedLine, dc, sc⟩
        | (Except.ok none, sc) => ⟨DocOutcome.failedLine, dc, sc⟩
        | (Except.ok (some _), sc) =>
          match datesOpt with
          | none => ⟨DocOutcome.failedLine, dc, sc⟩
          | some _ => ⟨DocOutcome.successLine, dc, sc⟩

/-- One step of the batch fold: append the path of a successfully processed
document to the success log model.  The scanned set `log` is fixed at
startup (lines 174-182), so it is the same for every document of the
run. -/
def batchStep (log : List String) (textOf : String → Option String)
    (dOr sOr : String → Nat → AttemptOutcome) (acc : List String) (doc : Doc) :
    List String :=
  match (process_document log doc (textOf doc.path) (dOr doc.path) (sOr doc.path)).outcome with
  | DocOutcome.successLine => acc ++ [doc.path]
  | _ => acc

/-- The batch entry point (lines 168-291), projected onto the success log:
given the paths already present in documents_success.jsonl at startup, the
list of path lines the run appends.  Each success line carries the
document path (`doc.model_dump` includes `path`), which is exactly what
the startup scan reads back (`processed_doc["path"]`, line 179). -/
def runBatch (docs : List Doc) (textOf : String → Option String)
    (dOr sOr : String → Nat → AttemptOutcome) (log : List String) : List String :=
  List.foldl (batchStep log textOf dOr sOr) [] docs

/- Helper lemmas about the state operations. -/

/-- Writing one field leaves every other field unchanged. -/
theorem getField_setField_ne (st : State) (f g : String) (v : Value) (h : g ≠ f) :
    getField (setField st f v) g = getField st g := by
  induction st with
  | nil => rfl
  | cons p rest ih =>
    by_cases hf : p.1 = f
    · have hfg : ¬(f = g) := fun e => h e.symm
      simp [setField, getField, hf, hfg, ih]
    · by_cases hg : p.1 = g
      · have hgf : ¬(g = f) := h
        simp [setField, getField, hf, hg, hgf]
      · simp [setField, getField, hf, hg, ih]

/-- Writing a field does not change the key set of the state. -/
theorem stateKeys_setField (st : State) (f : String) (v : Value) :
    stateKeys (setField st f v) = stateKeys st := by
  induction st with
  | nil => rfl
  | cons p rest ih =>
    by_cases hf : p.1 = f <;> simp [setField, stateKeys, hf] <;>
      simpa [stateKeys] using ih

/-- Unfolding one step of the merge fold. -/
theorem mergeResp_cons (st : State) (g : String) (rest : List String)
    (resp : String → Option Value) :
    mergeResp st (g :: rest) resp =
      mergeResp
        (match resp g with
         | some v => if truthyV v then setField st g v else st
         | none => st)
        rest resp := rfl

/-- Merging never touches a field outside the missing list it was given. -/
theorem getField_mergeResp_not_mem :
    ∀ (missing : List String) (st : State) (resp : String → Option Value) (f : String),
      f ∉ missing → getField (mergeResp st missing resp) f = getField st f := by
  intro missing
  induction missing with
  | nil => intro st resp f _; rfl
  | cons g rest ih =>
    intro st resp f h
    have hgf : f ≠ g := fun e => h (e ▸ List.mem_cons_self g rest)
    have hrest : f ∉ rest := fun hr => h (List.mem_cons_of_mem g hr)
    rw [mergeResp_cons]
    cases hrg : resp g with
    | none => exact ih st resp f hrest
    | some v =>
      by_cases ht : truthyV v = true
      · simp only [ht, if_true]
        rw [ih (setField st g v) resp f hrest,
          getField_setField_ne st g f v hgf]
      · simp only [ht, if_false]
        exact ih st resp f hrest

/-- Merging stores nothing for a field whose response value is falsy
(`None`, an empty string, or an empty list). -/
theorem getField_mergeResp_falsy :
    ∀ (missing : List String) (st : State) (resp : String → Option Value) (f : String),
      pyTruthy (resp f) = false →
      getField (mergeResp st missing resp) f = getField st f := by
  intro missing
  induction missing with
  | nil => intro st resp f _; rfl
  | cons g rest ih =>
    intro st resp f h
    rw [mergeResp_cons]
    by_cases hg : g = f
    · subst hg
      cases hrg : resp g with
      | none => exact ih st resp g h
      | some v =>
        have ht : truthyV v = false := by rw [hrg] at h; exact h
        simp only [ht, if_false]
        exact ih st resp g h
    · cases hrg : resp g with
      | none => exact ih st resp f h
      | some v =>
        by_cases ht : truthyV v = true
        · simp only [ht, if_true]
          rw [ih (setField st g v) resp f h,
            getField_setField_ne st g f v (fun e => hg e.symm)]
        · simp only [ht, if_false]
          exact ih st resp f h

/-- Merging does not change the key set of the state. -/
theorem stateKeys_mergeResp :
    ∀ (missing : List String) (st : State) (resp : String → Option Value),
      stateKeys (mergeResp st missing resp) = stateKeys st := by
  intro missing
  induction missing with
  | nil => intro st resp; rfl
  | cons g rest ih =>
    intro st resp
    rw [mergeResp_cons]
    cases hrg : resp g with
    | none => exact ih st resp
    | some v =>
      by_cases ht : truthyV v = true
      · simp only [ht, if_true]
        rw [ih (setField st g v) resp, stateKeys_setField]
      · simp only [ht, if_false]
        exact ih st resp

/-- In the initial state every field reads as `None`. -/
theorem getField_initState (schema : List FieldSpec) (f : String) :
    getField (initState schema) f = none := by
  unfold initState
  induction fieldNames schema with
  | nil => rfl
  | cons n rest ih => by_cases hn : n = f <;> simp [getField, hn, ih]

/-- At engine start every schema field, optional or not, is missing. -/
theorem missingFields_initState (schema : List FieldSpec) :
    missingFields (initState schema) (fieldNames schema) = fieldNames schema := by
  unfold missingFields
  exact List.filter_eq_self.mpr (fun f _ => by simp [getField_initState])

/-- The initial state is keyed exactly by the schema field names. -/
theorem stateKeys_initState (schema : List FieldSpec) :
    stateKeys (initState schema) = fieldNames schema := by
  unfold stateKeys initState
  rw [List.map_map]
  exact List.map_id' _

/-- When the completeness check passes, every field of the state is set. -/
theorem getField_isSome_of_allTruthy :
    ∀ (st : State) (f : String), allTruthy st = true → f ∈ stateKeys st →
      (getField st f).isSome = true := by
  intro st
  induction st with
  | nil => intro f _ hmem; simp [stateKeys] at hmem
  | cons p rest ih =>
    intro f hall hmem
    have hp : pyTruthy p.2 = true ∧ allTruthy rest = true := by
      simpa [allTruthy] using hall
    by_cases hf : p.1 = f
    · have : getField (p :: rest) f = p.2 := by simp [getField, hf]
      rw [this]
      cases hv : p.2 with
      | none => rw [hv] at hp; simp [pyTruthy] at hp
      | some v => rfl
    · have hmem' : f ∈ stateKeys rest := by
        rcases List.mem_cons.mp hmem with he | hm
        · exact absurd he.symm hf
        · exact hm
      have : getField (p :: rest) f = getField rest f := by simp [getField, hf]
      rw [this]
      exact ih f hp.2 hmem'

/-- A field of the state that is still unset falsifies the completeness
check `all(self.extracted_data.values())`. -/
theorem allTruthy_eq_false_of_none (st : State) (f : String)
    (hmem : f ∈ stateKeys st) (hnone : getField st f = none) :
    allTruthy st = false := by
  cases hall : allTruthy st with
  | false => rfl
  | true =>
    have := getField_isSome_of_allTruthy st f hall hmem
    rw [hnone] at this
    simp at this

/- Helper lemmas about the extraction loop. -/

/-- The loop makes at most one validator call per available step. -/
theorem extractSteps_calls_le (names : List String) (oracle : Nat → AttemptOutcome) :
    ∀ (fuel : Nat) (st : State) (es : Bool) (step : Nat),
      (extractSteps names oracle st es step fuel).2 ≤ fuel := by
  intro fuel
  induction fuel with
  | zero => intro st es step; simp [extractSteps]
  | succ n ih =>
    intro st es step
    simp only [extractSteps]
    by_cases hm : (missingFields st names).isEmpty
    · simp [hm]
    · simp only [hm, if_false]
      cases oracle step with
      | failure => simpa using Nat.succ_le_succ (ih st es (step + 1))
      | success resp =>
        by_cases hT : allTruthy (mergeResp st (missingFields st names) resp) = true
        · simp [hT]
        · simp only [hT, if_false]
          simpa using Nat.succ_le_succ (ih _ true (step + 1))

/-- A field set before some iteration keeps exactly its value through the
rest of the loop. -/
theorem extractSteps_preserves_some (names : List String) (oracle : Nat → AttemptOutcome) :
    ∀ (fuel : Nat) (st : State) (es : Bool) (step : Nat) (f : String) (v : Value),
      getField st f = some v →
      getField (finalStateOf (extractSteps names oracle st es step fuel).1) f = some v := by
  intro fuel
  induction fuel with
  | zero => intro st es step f v h; simpa [extractSteps, finalStateOf] using h
  | succ n ih =>
    intro st es step f v h
    have hnotmiss : f ∉ missingFields st names := by
      intro hmem
      have := (List.mem_filter.mp hmem).2
      rw [h] at this
      simp at this
    simp only [extractSteps]
    by_cases hm : (missingFields st names).isEmpty
    · simpa [hm, finalStateOf] using h
    · simp only [hm, if_false]
      cases oracle step with
      | failure => simpa using ih st es (step + 1) f v h
      | success resp =>
        have hmerged : getField (mergeResp st (missingFields st names) resp) f = some v := by
          rw [getField_mergeResp_not_mem (missingFields st names) st resp f hnotmiss]
          exact h
        by_cases hT : allTruthy (mergeResp st (missingFields st names) resp) = true
        · simpa [hT, finalStateOf] using hmerged
        · simp only [hT, if_false]
          simpa using ih _ true (step + 1) f v hmerged

/-- The loop never changes the key set of the state. -/
theorem stateKeys_extractSteps (names : List String) (oracle : Nat → AttemptOutcome) :
    ∀ (fuel : Nat) (st : State) (es : Bool) (step : Nat),
      stateKeys (finalStateOf (extractSteps names oracle st es step fuel).1) = stateKeys st := by
  intro fuel
  induction fuel with
  | zero => intro st es step; rfl
  | succ n ih =>
    intro st es step
    simp only [extractSteps]
    by_cases hm : (missingFields st names).isEmpty
    · simp [hm, finalStateOf]
    · simp only [hm, if_false]
      cases oracle step with
      | failure => simpa using ih st es (step + 1)
      | success resp =>
        by_cases hT : allTruthy (mergeResp st (missingFields st names) resp) = true
        · simp [hT, finalStateOf, stateKeys_mergeResp]
        · simp only [hT, if_false]
          have := ih (mergeResp st (missingFields st names) resp) true (step + 1)
          rw [stateKeys_mergeResp] at this
          simpa using this

/-- If some tracked field is still unset when the loop stops, the loop
consumed its entire chunk budget: neither the `break` nor the early return
can fire while any field of the state, optional or not, is unset. -/
theorem extractSteps_budget_of_none (names : List String) (oracle : Nat → AttemptOutcome) :
    ∀ (fuel : Nat) (st : State) (es : Bool) (step : Nat) (f : String),
      f ∈ names → f ∈ stateKeys st →
      getField (finalStateOf (extractSteps names oracle st es step fuel).1) f = none →
      (extractSteps names oracle st es step fuel).2 = fuel := by
  intro fuel
  induction fuel with
  | zero => intro st es step f _ _ _; rfl
  | succ n ih =>
    intro st es step f hnames hkeys hnone
    by_cases hm : (missingFields st names).isEmpty
    · exfalso
      have hst : getField st f = none := by
        simpa [extractSteps, hm, finalStateOf] using hnone
      have hmem : f ∈ missingFields st names :=
        List.mem_filter.mpr ⟨hnames, by rw [hst]; rfl⟩
      rw [List.isEmpty_iff] at hm
      rw [hm] at hmem
      exact absurd hmem (List.not_mem_nil f)
    · cases ho : oracle step with
      | failure =>
        have hnone' :
            getField (finalStateOf (extractSteps names oracle st es (step + 1) n).1) f
              = none := by
          simpa [extractSteps, hm, ho] using hnone
        have hc := ih st es (step + 1) f hnames hkeys hnone'
        simp [extractSteps, hm, ho, hc]
      | success resp =>
        have hkeys' : f ∈ stateKeys (mergeResp st (missingFields st names) resp) := by
          rw [stateKeys_mergeResp]; exact hkeys
        by_cases hT : allTruthy (mergeResp st (missingFields st names) resp) = true
        · exfalso
          have hn' : getField (mergeResp st (missingFields st names) resp) f = none := by
            simpa [extractSteps, hm, ho, hT, finalStateOf] using hnone
          have hfalse := allTruthy_eq_false_of_none _ f hkeys' hn'
          rw [hT] at hfalse
          exact absurd hfalse (by simp)
        · have hnone' :
              getField (finalStateOf
                (extractSteps names oracle (mergeResp st (missingFields st names) resp)
                  true (step + 1) n).1) f = none := by
            simpa [extractSteps, hm, ho, hT] using hnone
          have hc := ih _ true (step + 1) f hnames hkeys' hnone'
          simp [extractSteps, hm, ho, hT, hc]

/-- Renumbering: running the loop from step `k+1` is the same as running it
from step `k` against the oracle shifted by one. -/
theorem extractSteps_shift (names : List String) (oracle : Nat → AttemptOutcome) :
    ∀ (fuel : Nat) (st : State) (es : Bool) (step : Nat),
      extractSteps names oracle st es (step + 1) fuel =
        extractSteps names (fun s => oracle (s + 1)) st es step fuel := by
  intro fuel
  induction fuel with
  | zero => intro st es step; rfl
  | succ n ih =>
    intro st es step
    simp only [extractSteps]
    by_cases hm : (missingFields st names).isEmpty
    · simp [hm]
    · simp only [hm, if_false]
      cases oracle (step + 1) with
      | failure => simp [ih st es (step + 1)]
      | success resp =>
        by_cases hT : allTruthy (mergeResp st (missingFields st names) resp) = true
        · simp [hT]
        · simp [hT, ih _ true (step + 1)]

/-- Members of a written state: either an untouched original entry or an
entry holding the written value. -/
theorem mem_setField :
    ∀ (st : State) (f : String) (v : Value) (p : String × Option Value),
      p ∈ setField st f v → p ∈ st ∨ p.2 = some v := by
  intro st
  induction st with
  | nil => intro f v p hp; exact absurd hp (List.not_mem_nil p)
  | cons q rest ih =>
    intro f v p hp
    simp only [setField] at hp
    rcases List.mem_cons.mp hp with he | hm
    · by_cases hq : q.1 = f
      · simp only [hq, if_true] at he
        right; rw [he]
      · simp only [hq, if_false] at he
        left; exact he ▸ List.mem_cons_self q rest
    · rcases ih f v p hm with h1 | h2
      · left; exact List.mem_cons_of_mem q h1
      · right; exact h2

/-- Writing a truthy value preserves the truthiness invariant. -/
theorem stateWF_setField (st : State) (f : String) (v : Value)
    (hwf : stateWF st) (ht : truthyV v = true) : stateWF (setField st f v) := by
  intro p hp
  rcases mem_setField st f v p hp with h1 | h2
  · exact hwf p h1
  · right; rw [h2]; exact ht

/-- Merging preserves the truthiness invariant: the guard at line 114 only
ever stores truthy values. -/
theorem stateWF_mergeResp :
    ∀ (missing : List String) (st : State) (resp : String → Option Value),
      stateWF st → stateWF (mergeResp st missing resp) := by
  intro missing
  induction missing with
  | nil => intro st resp h; exact h
  | cons g rest ih =>
    intro st resp h
    rw [mergeResp_cons]
    cases hrg : resp g with
    | none => exact ih st resp h
    | some v =>
      by_cases ht : truthyV v = true
      · simp only [ht, if_true]
        exact ih _ resp (stateWF_setField st g v h ht)
      · simp only [ht, if_false]
        exact ih st resp h

/-- The loop preserves the truthiness invariant. -/
theorem stateWF_extractSteps (names : List String) (oracle : Nat → AttemptOutcome) :
    ∀ (fuel : Nat) (st : State) (es : Bool) (step : Nat),
      stateWF st →
      stateWF (finalStateOf (extractSteps names oracle st es step fuel).1) := by
  intro fuel
  induction fuel with
  | zero => intro st es step h; exact h
  | succ n ih =>
    intro st es step h
    simp only [extractSteps]
    by_cases hm : (missingFields st names).isEmpty
    · simpa [hm, finalStateOf] using h
    · simp only [hm, if_false]
      cases oracle step with
      | failure => simpa using ih st es (step + 1) h
      | success resp =>
        have hwf' := stateWF_mergeResp (missingFields st names) st resp h
        by_cases hT : allTruthy (mergeResp st (missingFields st names) resp) = true
        · simpa [hT, finalStateOf] using hwf'
        · simp only [hT, if_false]
          simpa using ih _ true (step + 1) hwf'

/-- The initial state satisfies the truthiness invariant. -/
theorem stateWF_initState (schema : List FieldSpec) : stateWF (initState schema) := by
  intro p hp
  unfold initState at hp
  rcases List.mem_map.mp hp with ⟨n, _, he⟩
  left; rw [← he]

/-- Final construction succeeds whenever every still-unset field permits
`None`. -/
theorem finalize_ok_of_optional (schema : List FieldSpec) (st : State)
    (h : ∀ f ∈ schema, getField st f.name = none → f.allowsNone = true) :
    finalize schema st = Except.ok st := by
  unfold finalize
  rw [if_pos]
  rw [List.all_eq_true]
  intro f hf
  cases hg : getField st f.name with
  | none => simp [h f hf hg]
  | some v => simp [hg]

/-- Successful final construction returns the state itself. -/
theorem finalize_eq_ok (schema : List FieldSpec) (st r : State)
    (h : finalize schema st = Except.ok r) : r = st := by
  unfold finalize at h
  by_cases hc : (schema.all fun f => (getField st f.name).isSome || f.allowsNone) = true
  · rw [if_pos hc] at h
    cases h
    rfl
  · rw [if_neg hc] at h
    exact absurd h (by simp)

/-- A path appended by one batch fold step is either already accumulated or
is the path of a document absent from the scanned success log. -/
theorem mem_batchStep (log : List String) (textOf : String → Option String)
    (dOr sOr : String → Nat → AttemptOutcome) (acc : List String) (doc : Doc)
    (p : String) (h : p ∈ batchStep log textOf dOr sOr acc doc) :
    p ∈ acc ∨ (p = doc.path ∧ doc.path ∉ log) := by
  unfold batchStep at h
  by_cases hmem : doc.path ∈ log
  · have hskip : (process_document log doc (textOf doc.path) (dOr doc.path)
        (sOr doc.path)).outcome = DocOutcome.skipped := by
      unfold process_document
      rw [if_pos hmem]
    rw [hskip] at h
    left
    exact h
  · cases ho : (process_document log doc (textOf doc.path) (dOr doc.path)
        (sOr doc.path)).outcome with
    | skipped => rw [ho] at h; left; exact h
    | failedLine => rw [ho] at h; left; exact h
    | successLine =>
      rw [ho] at h
      rcases List.mem_append.mp h with h1 | h2
      · left; exact h1
      · right
        exact ⟨List.mem_singleton.mp h2, hmem⟩

/- The claims. -/

/-- Claim C4 (confirmed): across successive merges the set of filled fields
never shrinks and a field once set keeps its first value: once
`getField st f = some v`, the state at every later point of the loop still
maps `f` to exactly `v` (first-write-wins, monotonic fill); moreover any
record `extract_information` hands back on success is exactly the final
loop state, so the returned record carries the first-written values. -/
theorem c4_first_write_wins (oracle : Nat → AttemptOutcome) :
    (∀ (names : List String) (fuel : Nat) (st : State) (es : Bool) (step : Nat)
        (f : String) (v : Value),
      getField st f = some v →
      getField (finalStateOf (extractSteps names oracle st es step fuel).1) f = some v)
    ∧ (∀ (schema : List FieldSpec) (mc : Nat) (r : State) (c : Nat),
      extract_information schema oracle mc = (Except.ok r, c) →
      r = finalStateOf
            (extractSteps (fieldNames schema) oracle (initState schema) false 1 mc).1) := by
  constructor
  · intro names fuel st es step f v h
    exact extractSteps_preserves_some names oracle fuel st es step f v h
  · intro schema mc r c h
    unfold extract_information at h
    rw [Prod.ext_iff] at h
    have h1 := h.1
    cases hres : (extractSteps (fieldNames schema) oracle (initState schema) false 1 mc).1 with
    | early st =>
      rw [hres] at h1
      exact (finalize_eq_ok schema st r h1).trans rfl
    | ended st es =>
      rw [hres] at h1
      cases es with
      | true => exact (finalize_eq_ok schema st r h1).trans rfl
      | false => exact absurd h1 (by simp [finishRun])

/-- Witness for C4: a state where an earlier attempt set the title to A is
run against a later attempt that supplies B for every field; the final
title is still A. -/
theorem c4_first_write_wins_witness :
    getField [("title", some (Value.vStr "A")), ("abstract", none)] "title"
      = some (Value.vStr "A")
    ∧ getField (finalStateOf
        (extractSteps ["title", "abstract"]
          (fun _ => AttemptOutcome.success (fun _ => some (Value.vStr "B")))
          [("title", some (Value.vStr "A")), ("abstract", none)] false 2 5).1) "title"
      = some (Value.vStr "A") :=
  ⟨by decide,
   (c4_first_write_wins
      (fun _ => AttemptOutcome.success (fun _ => some (Value.vStr "B")))).1
     ["title", "abstract"] 5 [("title", some (Value.vStr "A")), ("abstract", none)]
     false 2 "title" (Value.vStr "A") (by decide)⟩

/-- Claim C5 (confirmed): for every step at least 1, every chunk step and
every word list, the chunk is the first `min(chunk_step * step, total_words)`
words joined back into a string; the cutoff never exceeds the word count,
is non-decreasing in the step, and cuts an initial segment of the words. -/
theorem c5_cumulative_chunk (words : List String) (chunkStep step : Nat)
    (_h : 1 ≤ step) :
    get_cumulative_chunk words chunkStep step
      = " ".intercalate (words.take (cutoff chunkStep step words.length))
    ∧ cutoff chunkStep step words.length ≤ words.length
    ∧ cutoff chunkStep step words.length ≤ cutoff chunkStep (step + 1) words.length
    ∧ (words.take (cutoff chunkStep step words.length)).length
      = cutoff chunkStep step words.length
    ∧ words.take (cutoff chunkStep step words.length)
        ++ words.drop (cutoff chunkStep step words.length) = words := by
  refine ⟨rfl, Nat.min_le_right _ _, ?_, ?_, List.take_append_drop _ _⟩
  · unfold cutoff
    exact min_le_min (Nat.mul_le_mul_left chunkStep (Nat.le_succ step)) (le_refl _)
  · rw [List.length_take]
    unfold cutoff
    omega

/-- Witness for C5 at a concrete word list and step. -/
theorem c5_cumulative_chunk_witness :
    cutoff 3 1 (List.length ["a", "b"]) ≤ List.length ["a", "b"]
    ∧ get_cumulative_chunk ["a", "b"] 3 1
      = " ".intercalate (List.take (cutoff 3 1 (List.length ["a", "b"])) ["a", "b"]) :=
  ⟨(c5_cumulative_chunk ["a", "b"] 3 1 (by decide)).2.1,
   (c5_cumulative_chunk ["a", "b"] 3 1 (by decide)).1⟩

/-- Claim C9 (confirmed): every engine state maps each field to `None` or a
truthy value: the initial state is all-`None`, the loop preserves the
invariant, and a merge given a falsy response value (such as an empty
string or empty list) for a field leaves that field exactly as it was, so
an unset field stays unset and therefore stays missing. -/
theorem c9_truthy_invariant (names : List String) (oracle : Nat → AttemptOutcome) :
    (∀ (schema : List FieldSpec), stateWF (initState schema))
    ∧ (∀ (fuel : Nat) (st : State) (es : Bool) (step : Nat),
        stateWF st →
        stateWF (finalStateOf (extractSteps names oracle st es step fuel).1))
    ∧ (∀ (st : State) (missing : List String) (resp : String → Option Value) (f : String),
        pyTruthy (resp f) = false →
        getField (mergeResp st missing resp) f = getField st f) :=
  ⟨fun schema => stateWF_initState schema,
   fun fuel st es step hwf => stateWF_extractSteps names oracle fuel st es step hwf,
   fun st missing resp f hf => getField_mergeResp_falsy missing st resp f hf⟩

/-- Witness for C9: a run whose responses are all empty strings keeps the
invariant, and the merge of an empty-string response leaves the field
reading as it did before. -/
theorem c9_truthy_invariant_witness :
    stateWF (finalStateOf
      (extractSteps ["title"]
        (fun _ => AttemptOutcome.success (fun _ => some (Value.vStr "")))
        [("title", none)] false 1 2).1)
    ∧ getField (mergeResp [("title", none)] ["title"] (fun _ => some (Value.vStr "")))
        "title"
      = getField [("title", none)] "title" :=
  ⟨(c9_truthy_invariant ["title"]
      (fun _ => AttemptOutcome.success (fun _ => some (Value.vStr "")))).2.1
     2 [("title", none)] false 1 (by unfold stateWF; decide),
   (c9_truthy_invariant ["title"]
      (fun _ => AttemptOutcome.success (fun _ => some (Value.vStr "")))).2.2
     [("title", none)] ["title"] (fun _ => some (Value.vStr "")) "title" (by decide)⟩

/-- Claim C10 (confirmed): `extract_information` invokes the validator at
most `max_chunks` times.  Termination for every input is witnessed by the
embedding itself: the loop is structural recursion on the remaining chunk
budget, mirroring the bounded `for step in range(1, max_chunks + 1)` of
the source. -/
theorem c10_call_budget (schema : List FieldSpec) (oracle : Nat → AttemptOutcome)
    (maxChunks : Nat) :
    (extract_information schema oracle maxChunks).2 ≤ maxChunks :=
  extractSteps_calls_le (fieldNames schema) oracle maxChunks (initState schema) false 1

/-- Claim C6 (confirmed): a validation failure at step `k` contributes
nothing.  At the loop level, an iteration whose attempt fails validation
equals the run continuing at step `k + 1` from the exact same state (only
the call count grows by one).  At the function level, when the first
attempt fails validation, `extract_information` with budget `mc + 1`
returns exactly what it returns with budget `mc` against the
step-renumbered oracle, with one more counted call: the failure is
absorbed, never propagated. -/
theorem c6_validation_failure_skipped :
    (∀ (names : List String) (oracle : Nat → AttemptOutcome) (st : State) (es : Bool)
        (step fuel : Nat),
      oracle step = AttemptOutcome.failure →
      (missingFields st names).isEmpty = false →
      extractSteps names oracle st es step (fuel + 1)
        = ((extractSteps names oracle st es (step + 1) fuel).1,
           (extractSteps names oracle st es (step + 1) fuel).2 + 1))
    ∧ (∀ (schema : List FieldSpec) (oracle : Nat → AttemptOutcome) (mc : Nat),
      oracle 1 = AttemptOutcome.failure →
      fieldNames schema ≠ [] →
      extract_information schema oracle (mc + 1)
        = ((extract_information schema (fun s => oracle (s + 1)) mc).1,
           (extract_information schema (fun s => oracle (s + 1)) mc).2 + 1)) := by
  constructor
  · intro names oracle st es step fuel ho hm
    simp [extractSteps, hm, ho]
  · intro schema oracle mc ho hne
    have hm : (missingFields (initState schema) (fieldNames schema)).isEmpty = false := by
      rw [missingFields_initState]
      cases h : fieldNames schema with
      | nil => exact absurd h hne
      | cons a l => rfl
    have h1 : extractSteps (fieldNames schema) oracle (initState schema) false 1 (mc + 1)
        = ((extractSteps (fieldNames schema) oracle (initState schema) false 2 mc).1,
           (extractSteps (fieldNames schema) oracle (initState schema) false 2 mc).2 + 1) := by
      simp [extractSteps, hm, ho]
    have h2 : extractSteps (fieldNames schema) oracle (initState schema) false 2 mc
        = extractSteps (fieldNames schema) (fun s => oracle (s + 1)) (initState schema)
            false 1 mc := by
      simpa using extractSteps_shift (fieldNames schema) oracle mc (initState schema) false 1
    unfold extract_information
    rw [h1, h2]

/-- Witness for C6: one concrete failing attempt with one field missing. -/
theorem c6_validation_failure_skipped_witness :
    extractSteps ["t"] (fun _ => AttemptOutcome.failure) [("t", none)] false 1 (1 + 1)
      = ((extractSteps ["t"] (fun _ => AttemptOutcome.failure) [("t", none)] false (1 + 1) 1).1,
         (extractSteps ["t"] (fun _ => AttemptOutcome.failure) [("t", none)] false (1 + 1) 1).2 + 1) :=
  c6_validation_failure_skipped.1 ["t"] (fun _ => AttemptOutcome.failure)
    [("t", none)] false 1 1 rfl (by decide)

/-- Counterexample for C1 as stated: with the `ResearchPaperSummary` schema
(whose `authors` field permits `None`) and a validator that fills `title`
and `abstract` at the very first attempt but never `authors`, the loop ran
all 3 budgeted attempts instead of stopping once the non-optional fields
were complete, and the completeness check is false throughout: the unset
optional field blocked termination and prevented completeness. -/
theorem c1_counterexample :
    extract_information ResearchPaperSummary
        (fun _ => AttemptOutcome.success
          (fun f => if f = "title" then some (Value.vStr "T")
                    else if f = "abstract" then some (Value.vStr "Abs") else none)) 3
      = (Except.ok [("authors", none), ("title", some (Value.vStr "T")),
                    ("abstract", some (Value.vStr "Abs"))], 3)
    ∧ allTruthy [("authors", none), ("title", some (Value.vStr "T")),
                 ("abstract", some (Value.vStr "Abs"))] = false
    ∧ (3 : Nat) ≠ 1 :=
  ⟨rfl, by decide, by decide⟩

/-- Claim C1, amended (corrected): fields whose type permits absence are
NOT excluded from the tracked missing set.  Every schema field, optional
or not, starts unset and missing; any unset field of the state falsifies
the completeness check; and while any tracked field remains unset the loop
consumes its entire chunk budget.  Only the final record construction
treats a `None`-permitting field as optional. -/
theorem c1_optional_fields_tracked :
    (∀ (schema : List FieldSpec),
      missingFields (initState schema) (fieldNames schema) = fieldNames schema)
    ∧ (∀ (st : State) (f : String), f ∈ stateKeys st → getField st f = none →
        allTruthy st = false)
    ∧ (∀ (names : List String) (oracle : Nat → AttemptOutcome) (fuel : Nat) (st : State)
        (es : Bool) (step : Nat) (f : String),
        f ∈ names → f ∈ stateKeys st →
        getField (finalStateOf (extractSteps names oracle st es step fuel).1) f = none →
        (extractSteps names oracle st es step fuel).2 = fuel) :=
  ⟨missingFields_initState,
   fun st f h1 h2 => allTruthy_eq_false_of_none st f h1 h2,
   fun names oracle fuel st es step f h1 h2 h3 =>
     extractSteps_budget_of_none names oracle fuel st es step f h1 h2 h3⟩

/-- Witness for the amended C1: the optional `authors` field, unset while
`title` is filled, falsifies completeness and forces the full budget. -/
theorem c1_optional_fields_tracked_witness :
    allTruthy [("authors", (none : Option Value)), ("title", some (Value.vStr "T"))] = false
    ∧ (extractSteps ["authors", "title"]
        (fun _ => AttemptOutcome.success
          (fun f => if f = "title" then some (Value.vStr "T") else none))
        [("authors", none), ("title", none)] false 1 3).2 = 3 :=
  ⟨c1_optional_fields_tracked.2.1
     [("authors", (none : Option Value)), ("title", some (Value.vStr "T"))]
     "authors" (by decide) (by decide),
   c1_optional_fields_tracked.2.2 ["authors", "title"]
     (fun _ => AttemptOutcome.success
       (fun f => if f = "title" then some (Value.vStr "T") else none))
     3 [("authors", none), ("title", none)] false 1 "authors"
     (by decide) (by decide) (by decide)⟩

/-- Counterexample for C2 as stated: with the `ResearchPaperSummary`
schema and a validator whose responses always pass validation but carry
only empty strings, the budget of 2 is exhausted with `title` and
`abstract` still unset, and `extract_information` raises the pydantic
`ValidationError` from the final construction instead of returning the
partial record. -/
theorem c2_counterexample :
    extract_information ResearchPaperSummary
        (fun _ => AttemptOutcome.success (fun _ => some (Value.vStr ""))) 2
      = (Except.error PyError.validationError, 2) :=
  rfl

/-- Claim C2, amended (corrected): when the loop ends with fields still
unset, `extract_information` returns the partially filled record without
raising only if every still-unset field's type permits `None` (and at
least one attempt passed validation, so the post-loop logging does not hit
the unassigned `total_elapsed`); otherwise the final pydantic construction
raises, and classifying the outcome is left to the caller either way. -/
theorem c2_partial_record_on_optional_gaps (schema : List FieldSpec)
    (oracle : Nat → AttemptOutcome) (mc : Nat) (st : State) (c : Nat)
    (h : extractSteps (fieldNames schema) oracle (initState schema) false 1 mc
          = (LoopResult.ended st true, c))
    (hopt : ∀ f ∈ schema, getField st f.name = none → f.allowsNone = true) :
    extract_information schema oracle mc = (Except.ok st, c) := by
  unfold extract_information
  rw [h]
  show (finishRun schema (LoopResult.ended st true), c) = _
  rw [show finishRun schema (LoopResult.ended st true) = finalize schema st from rfl,
    finalize_ok_of_optional schema st hopt]

/-- Witness for the amended C2: budget 1, the only attempt fills `title`
and `abstract` but not the optional `authors`; the partial record is
returned. -/
theorem c2_partial_record_on_optional_gaps_witness :
    extract_information ResearchPaperSummary
        (fun _ => AttemptOutcome.success
          (fun f => if f = "title" then some (Value.vStr "T")
                    else if f = "abstract" then some (Value.vStr "Abs") else none)) 1
      = (Except.ok [("authors", none), ("title", some (Value.vStr "T")),
                    ("abstract", some (Value.vStr "Abs"))], 1) :=
  c2_partial_record_on_optional_gaps ResearchPaperSummary
    (fun _ => AttemptOutcome.success
      (fun f => if f = "title" then some (Value.vStr "T")
                else if f = "abstract" then some (Value.vStr "Abs") else none))
    1 [("authors", none), ("title", some (Value.vStr "T")),
       ("abstract", some (Value.vStr "Abs"))] 1 (by decide) (by decide)

/-- Counterexample for C3 as stated: a 2-word text with `chunk_step = 300`
fits entirely in the first chunk and every later chunk is the identical
full text, yet with a validator that keeps failing the engine issues 3
attempts under a budget of 3, not exactly one. -/
theorem c3_counterexample :
    get_cumulative_chunk ["alpha", "beta"] 300 1 = "alpha beta"
    ∧ get_cumulative_chunk ["alpha", "beta"] 300 2 = "alpha beta"
    ∧ get_cumulative_chunk ["alpha", "beta"] 300 3 = "alpha beta"
    ∧ (extract_information ResearchPaperDates (fun _ => AttemptOutcome.failure) 3).2 = 3
    ∧ (extract_information ResearchPaperDates (fun _ => AttemptOutcome.failure) 3).2 ≠ 1 :=
  ⟨rfl, rfl, rfl, rfl, by decide⟩

/-- Claim C3, amended (corrected): when the whole document fits in the
first chunk, later steps indeed cannot add words — every chunk equals the
first —, but the engine issues exactly one validator attempt only when
that first attempt fills every field (then it returns the completed record
at step 1 regardless of the remaining budget); otherwise it keeps issuing
attempts on the identical chunk until the budget is exhausted or the
fields complete. -/
theorem c3_single_attempt_iff_first_complete :
    (∀ (words : List String) (chunkStep step : Nat),
      words.length ≤ chunkStep → 1 ≤ step →
      get_cumulative_chunk words chunkStep step = get_cumulative_chunk words chunkStep 1)
    ∧ (∀ (schema : List FieldSpec) (oracle : Nat → AttemptOutcome)
        (resp : String → Option Value) (mc : Nat),
      fieldNames schema ≠ [] →
      oracle 1 = AttemptOutcome.success resp →
      allTruthy (mergeResp (initState schema)
          (missingFields (initState schema) (fieldNames schema)) resp) = true →
      extract_information schema oracle (mc + 1)
        = (Except.ok (mergeResp (initState schema)
            (missingFields (initState schema) (fieldNames schema)) resp), 1)) := by
  constructor
  · intro words chunkStep step hl hs
    unfold get_cumulative_chunk cutoff
    have h1 : words.length ≤ chunkStep * step :=
      le_trans hl (Nat.le_mul_of_pos_right chunkStep hs)
    have h2 : words.length ≤ chunkStep * 1 := by simpa using hl
    rw [Nat.min_eq_right h1, Nat.min_eq_right h2]
  · intro schema oracle resp mc hne ho hT
    have hm : (missingFields (initState schema) (fieldNames schema)).isEmpty = false := by
      rw [missingFields_initState]
      cases h : fieldNames schema with
      | nil => exact absurd h hne
      | cons a l => rfl
    have h1 : extractSteps (fieldNames schema) oracle (initState schema) false 1 (mc + 1)
        = (LoopResult.early (mergeResp (initState schema)
            (missingFields (initState schema) (fieldNames schema)) resp), 1) := by
      simp [extractSteps, hm, ho, hT]
    have hfin : finalize schema (mergeResp (initState schema)
        (missingFields (initState schema) (fieldNames schema)) resp)
        = Except.ok (mergeResp (initState schema)
            (missingFields (initState schema) (fieldNames schema)) resp) := by
      apply finalize_ok_of_optional
      intro f hf hnone
      exfalso
      have hkey : f.name ∈ stateKeys (mergeResp (initState schema)
          (missingFields (initState schema) (fieldNames schema)) resp) := by
        rw [stateKeys_mergeResp, stateKeys_initState]
        exact List.mem_map.mpr ⟨f, hf, rfl⟩
      have hsome := getField_isSome_of_allTruthy _ f.name hT hkey
      rw [hnone] at hsome
      simp at hsome
    unfold extract_information
    rw [h1]
    show (finishRun schema (LoopResult.early _), 1) = _
    rw [show finishRun schema (LoopResult.early (mergeResp (initState schema)
          (missingFields (initState schema) (fieldNames schema)) resp))
        = finalize schema (mergeResp (initState schema)
            (missingFields (initState schema) (fieldNames schema)) resp) from rfl,
      hfin]

/-- Witness for the amended C3: a first attempt that fills both date
fields stops the loop at step 1 under a budget of 7, and a short word list
yields the same chunk at step 2 as at step 1. -/
theorem c3_single_attempt_iff_first_complete_witness :
    get_cumulative_chunk ["a"] 5 2 = get_cumulative_chunk ["a"] 5 1
    ∧ extract_information ResearchPaperDates
        (fun _ => AttemptOutcome.success (fun _ => some (Value.vStr "x"))) (6 + 1)
      = (Except.ok (mergeResp (initState ResearchPaperDates)
          (missingFields (initState ResearchPaperDates) (fieldNames ResearchPaperDates))
          (fun _ => some (Value.vStr "x"))), 1) :=
  ⟨c3_single_attempt_iff_first_complete.1 ["a"] 5 2 (by decide) (by decide),
   c3_single_attempt_iff_first_complete.2 ResearchPaperDates
     (fun _ => AttemptOutcome.success (fun _ => some (Value.vStr "x")))
     (fun _ => some (Value.vStr "x")) 6 (by decide) rfl (by decide)⟩

/-- Counterexample for C7 as stated: a not-yet-processed document whose
extracted text is 42 characters long is routed to the failure log, but the
structured-response validator IS invoked for it: the date-range extraction
runs before the text-length check and makes one validator call here. -/
theorem c7_counterexample :
    process_document [] ⟨"doc.pdf"⟩
        (some "aaaaaaaaaaaaaaaaaaaaaaaaaaaaaaaaaaaaaaaaaa")
        (fun _ => AttemptOutcome.success (fun _ => some (Value.vDate 2017 1 1)))
        (fun _ => AttemptOutcome.failure)
      = ⟨DocOutcome.failedLine, 1, 0⟩
    ∧ String.length "aaaaaaaaaaaaaaaaaaaaaaaaaaaaaaaaaaaaaaaaaa" = 42
    ∧ (1 : Nat) ≠ 0 :=
  ⟨rfl, rfl, by decide⟩

/-- Claim C7, amended (corrected): a document whose extracted text is
unavailable or shorter than 100 characters is routed to the failure log
and the summary extraction never invokes the validator for it; the
date-range extraction, however, runs before the text check and does invoke
the validator. -/
theorem c7_short_text_skips_summary (already : List String) (doc : Doc)
    (textData : Option String) (dOr sOr : Nat → AttemptOutcome)
    (hnew : doc.path ∉ already) (hshort : textTooShort textData = true) :
    (process_document already doc textData dOr sOr).outcome = DocOutcome.failedLine
    ∧ (process_document already doc textData dOr sOr).summaryCalls = 0 := by
  unfold process_document
  rw [if_neg hnew]
  cases hd : get_date_range_metadata dOr with
  | mk res dc =>
    cases res with
    | error e => exact ⟨rfl, rfl⟩
    | ok datesOpt => simp [hshort]

/-- Witness for the amended C7: unavailable text, fresh document. -/
theorem c7_short_text_skips_summary_witness :
    (process_document [] ⟨"d"⟩ none (fun _ => AttemptOutcome.failure)
        (fun _ => AttemptOutcome.failure)).outcome = DocOutcome.failedLine
    ∧ (process_document [] ⟨"d"⟩ none (fun _ => AttemptOutcome.failure)
        (fun _ => AttemptOutcome.failure)).summaryCalls = 0 :=
  c7_short_text_skips_summary [] ⟨"d"⟩ none (fun _ => AttemptOutcome.failure)
    (fun _ => AttemptOutcome.failure) (by decide) rfl

/-- Claim C8 (confirmed): the batch run is idempotent across restarts.
Every path line the batch appends to the success log belongs to a document
whose path was not already in the scanned log: a document whose path
already appears is skipped before any processing.  Hence a second run over
the same documents with the grown log appends no duplicate line for any
previously-succeeded document. -/
theorem c8_idempotent_resume (docs : List Doc) (textOf : String → Option String)
    (dOr sOr : String → Nat → AttemptOutcome) (log : List String) (p : String)
    (h : p ∈ runBatch docs textOf dOr sOr log) : p ∉ log := by
  have key : ∀ (ds : List Doc) (acc : List String) (q : String),
      q ∈ List.foldl (batchStep log textOf dOr sOr) acc ds → q ∈ acc ∨ q ∉ log := by
    intro ds
    induction ds with
    | nil => intro acc q hq; left; exact hq
    | cons d rest ih =>
      intro acc q hq
      rcases ih (batchStep log textOf dOr sOr acc d) q hq with h1 | h2
      · rcases mem_batchStep log textOf dOr sOr acc d q h1 with ha | ⟨he, hnot⟩
        · left; exact ha
        · right; rw [he]; exact hnot
      · right; exact h2
  rcases key docs [] p h with h1 | h2
  · exact absurd h1 (List.not_mem_nil p)
  · exact h2

/-- Witness for C8: a batch over one fresh document appends its path, and
that path was not in the initial success log. -/
theorem c8_idempotent_resume_witness :
    "a" ∈ runBatch [⟨"a"⟩]
        (fun _ => some (String.mk (List.replicate 100 'a')))
        (fun _ _ => AttemptOutcome.success (fun _ => some (Value.vDate 2017 1 1)))
        (fun _ _ => AttemptOutcome.success (fun _ => some (Value.vStr "x"))) []
    ∧ "a" ∉ ([] : List String) :=
  ⟨by decide,
   c8_idempotent_resume [⟨"a"⟩]
     (fun _ => some (String.mk (List.replicate 100 'a')))
     (fun _ _ => AttemptOutcome.success (fun _ => some (Value.vDate 2017 1 1)))
     (fun _ _ => AttemptOutcome.success (fun _ => some (Value.vStr "x"))) [] "a"
     (by decide)⟩

end DocProc
